import Mathlib

/-!
Verification of `thiserror_string_context`: a Rust attribute macro that
augments a `thiserror` error enum with a hidden `__WithContext(String,
Box<Enum>)` variant, an inherent `unwrap_context` method, and a generic
`AddErrorContext` implementation adding `with_context` to `Result`.

Two layers are embedded from the source:

1. The *runtime semantics* of the generated code (`unwrap_context`,
   `with_context`).  An enum augmented by the macro is modelled by
   `Augmented V`: `V` stands for the set of pre-existing (user) variant
   values, and the `withContext` constructor is the synthesized variant;
   Rust's `Box<Enum>` indirection becomes plain structural recursion.
   Rust's `Result` is `RustResult` with `map_err` mirroring
   `std::result::Result::map_err`.

2. The *structural transformation* performed by the macro itself
   (`ContextAttr.parse`, `string_context`): token-level parsing of the
   attribute argument (with syn's requirement that the whole stream be
   consumed) and the rewriting of the enum item.
-/

/-! ## Runtime model of the generated code -/

/-- Model of the augmented enum generated by the macro for a user enum whose
pre-existing variant values form the type `V`.  `base v` is a pre-existing
variant; `withContext ctx e` is the synthesized
`__WithContext(String, Box<Enum>)` variant (the `Box` indirection is
represented by the recursive occurrence). -/
inductive Augmented (V : Type) : Type where
  | base : V → Augmented V
  | withContext : String → Augmented V → Augmented V
  deriving DecidableEq, Repr

/-- Mirror of Rust `std::result::Result<T, E>`. -/
inductive RustResult (T : Type) (E : Type) : Type where
  | ok : T → RustResult T E
  | err : E → RustResult T E
  deriving DecidableEq, Repr

/-- Mirror of Rust `Result::map_err`: applies `op` to the `err` payload and
leaves `ok` untouched. -/
def RustResult.map_err : RustResult T E → (E → F) → RustResult T F
  | .ok v, _ => .ok v
  | .err e, op => .err (op e)

/-- Generated `unwrap_context` (from the macro's `quote!` block):
`Self::__WithContext(ctx, err) => (Some(ctx), *err)` and the wildcard arm
`_ => (None, self)`. -/
def Augmented.unwrap_context : Augmented V → Option String × Augmented V
  | .withContext ctx err => (some ctx, err)
  | .base v => (none, .base v)

/-- Generated `with_context` (from the macro's `quote!` block):
`self.map_err(|e| Enum::__WithContext(f().into(), Box::new(e.into())))`.
`eInto` models the `E: Into<Enum>` conversion and `sInto` the
`S: Into<String>` conversion; the thunk `f` models the `FnOnce() -> S`
closure. -/
def with_context (eInto : E → Augmented V) (sInto : S → String)
    (self : RustResult T E) (f : Unit → S) : RustResult T (Augmented V) :=
  self.map_err (fun e => Augmented.withContext (sInto (f ())) (eInto e))

/-- Discriminator for the synthesized variant. -/
def Augmented.isWithContext : Augmented V → Bool
  | .withContext _ _ => true
  | .base _ => false

/-- Concrete user enum mirroring the crate's own test enum `MyError`
(variants `Error1`, `Error2`, `Error3`); used as witness material. -/
inductive MyErrorBase : Type where
  | error1 | error2 | error3
  deriving DecidableEq, Repr

/-! ### Claims about the runtime semantics -/

/-- C1: for every error value `e` convertible into the augmented enum (via
`eInto`) and every context string `c`, attaching context `c` to `Err(e)` with
the generated `with_context` and then peeling the resulting error with
`unwrap_context` yields `(Some c, eInto e)`.  Instantiating `eInto := id`
gives the particular case where `e` is already of the enum type, yielding
`(Some c, e)`. -/
theorem with_context_unwrap_context_roundtrip {V E T : Type}
    (eInto : E → Augmented V) (e : E) (c : String) :
    ∃ x : Augmented V,
      with_context (T := T) eInto id (RustResult.err e) (fun _ => c)
        = RustResult.err x
      ∧ x.unwrap_context = (some c, eInto e) :=
  ⟨Augmented.withContext c (eInto e), rfl, rfl⟩

/-- C2: `with_context` applied to `Ok(v)` returns `Ok(v)` unchanged for every
thunk, hence its result on `Ok` inputs is identical for any two thunks (the
thunk is never invoked). -/
theorem with_context_ok_lazy {V E T S : Type}
    (eInto : E → Augmented V) (sInto : S → String) (v : T)
    (f g : Unit → S) :
    with_context eInto sInto (RustResult.ok v) f = RustResult.ok v
    ∧ with_context eInto sInto (RustResult.ok v) f
        = with_context eInto sInto (RustResult.ok v) g :=
  ⟨rfl, rfl⟩

/-- C3: for every instance of the augmented enum that is not the synthesized
context variant, `unwrap_context` returns `(none, v)` with `v` unchanged.
(`unwrap_context` is a total Lean function over all variants, so totality is
by construction.) -/
theorem unwrap_context_non_wrapped {V : Type} (v : Augmented V)
    (h : v.isWithContext = false) :
    v.unwrap_context = (none, v) := by
  cases v with
  | base b => rfl
  | withContext c e => simp [Augmented.isWithContext] at h

/-- Witness for C3 at the concrete pre-existing variant `Error1`. -/
theorem unwrap_context_non_wrapped_witness :
    (Augmented.base MyErrorBase.error1).unwrap_context
      = (none, Augmented.base MyErrorBase.error1) :=
  unwrap_context_non_wrapped (Augmented.base MyErrorBase.error1) rfl

/-- C4: attaching context `c1` and then `c2` to `Err(e)` produces a two-layer
structure: peeling the outer error yields `(some c2, inner)` and peeling
`inner` yields `(some c1, eInto e)`.  The second `with_context` application
uses the reflexive `Into<Self>` conversion, i.e. `id`. -/
theorem with_context_nesting {V E T : Type}
    (eInto : E → Augmented V) (e : E) (c1 c2 : String) :
    ∃ outer inner : Augmented V,
      with_context (T := T) id id
          (with_context eInto id (RustResult.err e) (fun _ => c1))
          (fun _ => c2)
        = RustResult.err outer
      ∧ outer.unwrap_context = (some c2, inner)
      ∧ inner.unwrap_context = (some c1, eInto e) :=
  ⟨Augmented.withContext c2 (Augmented.withContext c1 (eInto e)),
   Augmented.withContext c1 (eInto e), rfl, rfl, rfl⟩

/-! ## Structural model of the macro transformation -/

/-- A token in the attribute argument stream: a string literal or any other
token. -/
inductive Tok : Type where
  | litStr : String → Tok
  | other : String → Tok
  deriving DecidableEq, Repr

/-- An attribute on a variant: `#[error("...")]` carrying a format template,
or any other attribute. -/
inductive VarAttr : Type where
  | errorAttr : String → VarAttr
  | otherAttr : String → VarAttr
  deriving DecidableEq, Repr

/-- An attribute on a field: `#[source]` or any other attribute. -/
inductive FieldAttr : Type where
  | sourceAttr : FieldAttr
  | otherFieldAttr : String → FieldAttr
  deriving DecidableEq, Repr

/-- The type of a variant field, as far as the macro's output shapes it:
`String`, `Box<Ident>`, or anything else. -/
inductive FieldTy : Type where
  | stringTy : FieldTy
  | boxTy : String → FieldTy
  | otherTy : String → FieldTy
  deriving DecidableEq, Repr

/-- A variant field: its attributes and its type. -/
structure VariantField : Type where
  attrs : List FieldAttr
  ty : FieldTy
  deriving DecidableEq, Repr

/-- An enum variant: attributes, name, and field list. -/
structure Variant : Type where
  attrs : List VarAttr
  name : String
  fields : List VariantField
  deriving DecidableEq, Repr

/-- The structural parts of a `syn::ItemEnum` the macro reads and writes:
top-level attributes, visibility, identifier, and variant sequence. -/
structure ItemEnum : Type where
  attrs : List String
  vis : String
  ident : String
  variants : List Variant
  deriving DecidableEq, Repr

/-- Mirror of `impl Parse for ContextAttr`: an empty stream parses to no
message; otherwise one string literal is parsed.  `parse_macro_input!` (via
`syn::parse`) additionally requires the whole stream to be consumed, so a
leading non-literal token or tokens left after the literal are parse
errors. -/
def ContextAttr.parse : List Tok → Except String (Option String)
  | [] => .ok none
  | [.litStr s] => .ok (some s)
  | .litStr _ :: _ :: _ => .error "unexpected token"
  | .other _ :: _ => .error "expected string literal"

/-- The variant synthesized by the macro:
`#[error(#custom_message)] __WithContext(String, #[source] Box<#enum_name>)`. -/
def new_variant (custom_message : String) (enum_name : String) : Variant :=
  { attrs := [.errorAttr custom_message],
    name := "__WithContext",
    fields := [⟨[], .stringTy⟩, ⟨[.sourceAttr], .boxTy enum_name⟩] }

/-- Mirror of the `string_context` attribute macro body: parse the attribute
argument (defaulting the message to `"{0}"`), then emit the input enum with
the synthesized variant appended, keeping name, visibility, attributes and
the original variants.  A parse failure aborts with the error and produces
no artifacts. -/
def string_context (attr : List Tok) (input_enum : ItemEnum) :
    Except String ItemEnum :=
  match ContextAttr.parse attr with
  | .error e => .error e
  | .ok message =>
      let custom_message := message.getD "{0}"
      .ok { input_enum with
            variants := input_enum.variants
              ++ [new_variant custom_message input_enum.ident] }

/-! ## Model of the exported trait versus the generated implementation

`src/lib.rs` declares
`pub trait AddErrorContext<E,T> { fn with_context<'a>(self, f: impl FnOnce()->&'a str) -> Result<T, E>; }`
while the macro emits
`impl<E,T,S> AddErrorContext<#enum_name, T, S> for Result<T, E> where S: Into<String> { fn with_context(self, f: impl FnOnce() -> S) ... }`.
The signature-level facts needed to compare the two are recorded as data. -/

/-- The return type of the context thunk in a `with_context` signature:
the fixed `&'a str` of the trait declaration, or the method-generic
`S: Into<String>` of the generated implementation. -/
inductive ThunkRet : Type where
  | refStr : ThunkRet
  | genericIntoString : ThunkRet
  deriving DecidableEq, Repr

/-- Number of generic type parameters of the trait `AddErrorContext<E,T>`
exported by `src/lib.rs`. -/
def addErrorContext_trait_param_count : Nat := 2

/-- Thunk return type in the exported trait's `with_context` signature:
`impl FnOnce() -> &'a str`. -/
def addErrorContext_trait_thunk_ret : ThunkRet := .refStr

/-- Number of generic arguments the macro-generated `impl` supplies to
`AddErrorContext` (`#enum_name, T, S`). -/
def generated_impl_trait_arg_count : Nat := 3

/-- Thunk return type in the generated implementation's `with_context`
signature: `impl FnOnce() -> S` with `S: Into<String>`. -/
def generated_impl_thunk_ret : ThunkRet := .genericIntoString

/-! ## Helper lemmas on the transformation -/

/-- When the attribute stream parses to `m`, `string_context` succeeds and
appends the synthesized variant built from the (defaulted) message. -/
theorem string_context_ok (toks : List Tok) (item : ItemEnum)
    (m : Option String) (hp : ContextAttr.parse toks = Except.ok m) :
    string_context toks item
      = Except.ok { item with
          variants := item.variants
            ++ [new_variant (m.getD "{0}") item.ident] } := by
  unfold string_context
  rw [hp]

/-- When the attribute stream fails to parse, `string_context` propagates the
error and emits nothing. -/
theorem string_context_err (toks : List Tok) (item : ItemEnum)
    (e : String) (hp : ContextAttr.parse toks = Except.error e) :
    string_context toks item = Except.error e := by
  unfold string_context
  rw [hp]

/-- Sample enum mirroring the crate's own test enum. -/
def sampleEnum : ItemEnum :=
  { attrs := ["derive(Error,Debug)"],
    vis := "",
    ident := "MyError",
    variants :=
      [ { attrs := [.errorAttr "Error 1"], name := "Error1", fields := [] },
        { attrs := [.errorAttr "Error 2"], name := "Error2", fields := [] },
        { attrs := [.errorAttr "Error 3"], name := "Error3", fields := [] } ] }

/-- The augmented form of `sampleEnum` under the default template. -/
def sampleOut : ItemEnum :=
  { sampleEnum with
    variants := sampleEnum.variants ++ [new_variant "{0}" sampleEnum.ident] }

/-- The augmented form of `sampleEnum` under the custom template
`"Custom context messag: {0}"` used by the crate's test. -/
def sampleOutCustom : ItemEnum :=
  { sampleEnum with
    variants := sampleEnum.variants
      ++ [new_variant "Custom context messag: {0}" sampleEnum.ident] }

/-- An input enum whose user variants already contain the reserved name
`__WithContext`. -/
def collisionEnum : ItemEnum :=
  { attrs := ["derive(Error,Debug)"],
    vis := "",
    ident := "CollidingError",
    variants :=
      [ { attrs := [.errorAttr "boom"], name := "__WithContext",
          fields := [] } ] }

/-! ### Claims about the transformation -/

/-- C5: contrary to the claim, the macro-generated implementation does not
match the `AddErrorContext` trait exported by `src/lib.rs`: the generated
`impl` supplies three generic arguments (`Enum, T, S`) where the exported
trait declares two parameters (`E, T`), and its thunk returns a
method-generic `S: Into<String>` where the exported trait fixes
`&'a str`; the generated artifact therefore fails to implement the exported
trait (the crate's own tests cannot compile against it). -/
theorem generated_impl_trait_mismatch :
    generated_impl_trait_arg_count ≠ addErrorContext_trait_param_count
    ∧ generated_impl_thunk_ret ≠ addErrorContext_trait_thunk_ret := by
  decide

/-- C6 counterexample: on an input enum that already has a user variant named
`__WithContext`, the transformation succeeds (no `NameCollision` diagnostic
is produced) and silently emits an enum whose variant-name sequence contains
`__WithContext` twice. -/
theorem string_context_no_collision_diagnostic :
    ∃ out : ItemEnum, string_context [] collisionEnum = Except.ok out
      ∧ out.variants.map Variant.name = ["__WithContext", "__WithContext"] :=
  ⟨_, rfl, rfl⟩

/-- C6 (amended): for every input enum in which the reserved name
`__WithContext` already occurs among the user's variants, the transformation
does not fail: it unconditionally appends the synthesized variant, producing
an enum whose variant-name sequence contains `__WithContext` at least twice
(the duplicate surfaces only in later compilation of the generated code). -/
theorem string_context_appends_despite_collision
    (toks : List Tok) (item : ItemEnum) (m : Option String)
    (hp : ContextAttr.parse toks = Except.ok m)
    (h : "__WithContext" ∈ item.variants.map Variant.name) :
    ∃ out : ItemEnum, string_context toks item = Except.ok out
      ∧ out.variants.map Variant.name
          = item.variants.map Variant.name ++ ["__WithContext"]
      ∧ 2 ≤ (out.variants.map Variant.name).count "__WithContext" := by
  refine ⟨_, string_context_ok toks item m hp, ?_, ?_⟩
  · simp [new_variant]
  · have h1 : 0 < (item.variants.map Variant.name).count "__WithContext" :=
      List.count_pos_iff.mpr h
    show 2 ≤ (List.map Variant.name (item.variants
        ++ [new_variant (m.getD "{0}") item.ident])).count "__WithContext"
    rw [List.map_append, List.count_append]
    have h2 : (List.map Variant.name
        [new_variant (m.getD "{0}") item.ident]).count "__WithContext" = 1 := by
      simp [new_variant]
    rw [h2]
    omega

/-- Witness for the amended C6 at the concrete colliding enum. -/
theorem string_context_appends_despite_collision_witness :
    ∃ out : ItemEnum, string_context [] collisionEnum = Except.ok out
      ∧ out.variants.map Variant.name
          = collisionEnum.variants.map Variant.name ++ ["__WithContext"]
      ∧ 2 ≤ (out.variants.map Variant.name).count "__WithContext" :=
  string_context_appends_despite_collision [] collisionEnum none rfl
    (by simp [collisionEnum])

/-- C7: for every attribute stream that is neither empty nor exactly one
string literal, the transformation fails with a compile-time diagnostic and
emits no artifacts (the `Except.error` result carries only the message). -/
theorem string_context_malformed_attr
    (toks : List Tok) (item : ItemEnum)
    (hne : toks ≠ [])
    (hnl : ∀ s, toks ≠ [Tok.litStr s]) :
    ∃ msg, string_context toks item = Except.error msg := by
  match toks with
  | [] => exact absurd rfl hne
  | [Tok.litStr s] => exact absurd rfl (hnl s)
  | Tok.litStr s :: t :: rest => exact ⟨"unexpected token", rfl⟩
  | Tok.other s :: rest => exact ⟨"expected string literal", rfl⟩

/-- Witness for C7 at a concrete non-literal attribute token. -/
theorem string_context_malformed_attr_witness :
    ∃ msg, string_context [Tok.other "x"] sampleEnum = Except.error msg :=
  string_context_malformed_attr [Tok.other "x"] sampleEnum
    (by simp) (by intro s h; simp at h)

/-- C8: whenever the transformation succeeds, the augmented enum keeps the
input's name, visibility and top-level attributes verbatim, carries every
pre-existing variant unmodified in original order, and appends exactly one
new variant at the end of the variant sequence. -/
theorem string_context_preserves_enum_shape
    (toks : List Tok) (item out : ItemEnum)
    (h : string_context toks item = Except.ok out) :
    out.ident = item.ident ∧ out.vis = item.vis ∧ out.attrs = item.attrs
    ∧ ∃ nv : Variant, out.variants = item.variants ++ [nv] := by
  cases hp : ContextAttr.parse toks with
  | error e =>
      rw [string_context_err toks item e hp] at h
      exact Except.noConfusion h
  | ok m =>
      rw [string_context_ok toks item m hp] at h
      obtain rfl := (Except.ok.inj h).symm
      exact ⟨rfl, rfl, rfl, new_variant (m.getD "{0}") item.ident, rfl⟩

/-- Witness for C8 at the sample enum with an empty attribute stream. -/
theorem string_context_preserves_enum_shape_witness :
    sampleOut.ident = sampleEnum.ident ∧ sampleOut.vis = sampleEnum.vis
    ∧ sampleOut.attrs = sampleEnum.attrs
    ∧ ∃ nv : Variant, sampleOut.variants = sampleEnum.variants ++ [nv] :=
  string_context_preserves_enum_shape [] sampleEnum sampleOut rfl

/-- C9: with zero macro arguments the synthesized variant's display
annotation carries exactly the template `"{0}"`; with one string-literal
argument it carries exactly that literal's content. -/
theorem string_context_template
    (item : ItemEnum) (s : String) :
    (∀ out, string_context [] item = Except.ok out →
        ∃ v, out.variants.getLast? = some v
          ∧ v.attrs = [VarAttr.errorAttr "{0}"])
    ∧ (∀ out, string_context [Tok.litStr s] item = Except.ok out →
        ∃ v, out.variants.getLast? = some v
          ∧ v.attrs = [VarAttr.errorAttr s]) := by
  constructor
  · intro out h
    rw [string_context_ok [] item none rfl] at h
    obtain rfl := (Except.ok.inj h).symm
    exact ⟨new_variant "{0}" item.ident, by simp, rfl⟩
  · intro out h
    rw [string_context_ok [Tok.litStr s] item (some s) rfl] at h
    obtain rfl := (Except.ok.inj h).symm
    exact ⟨new_variant s item.ident, by simp, rfl⟩

/-- Witness for C9: default template on the sample enum, and the crate's own
custom template literal. -/
theorem string_context_template_witness :
    (∃ v, sampleOut.variants.getLast? = some v
      ∧ v.attrs = [VarAttr.errorAttr "{0}"])
    ∧ (∃ v, sampleOutCustom.variants.getLast? = some v
      ∧ v.attrs = [VarAttr.errorAttr "Custom context messag: {0}"]) :=
  ⟨(string_context_template sampleEnum "Custom context messag: {0}").1
      sampleOut rfl,
   (string_context_template sampleEnum "Custom context messag: {0}").2
      sampleOutCustom rfl⟩

/-- C10: whenever the transformation succeeds, the appended variant is named
by the fixed sentinel `__WithContext`, its payload is the ordered pair
`(String, Box<Enum>)` whose boxed field carries the `#[source]` marker, and a
user variant's name collides with the synthesized one exactly when it is
`__WithContext`. -/
theorem new_variant_shape
    (toks : List Tok) (item out : ItemEnum)
    (h : string_context toks item = Except.ok out) :
    ∃ v : Variant, out.variants.getLast? = some v
      ∧ v.name = "__WithContext"
      ∧ v.fields = [⟨[], FieldTy.stringTy⟩,
                    ⟨[FieldAttr.sourceAttr], FieldTy.boxTy item.ident⟩]
      ∧ ∀ u ∈ item.variants, (u.name = v.name ↔ u.name = "__WithContext") := by
  cases hp : ContextAttr.parse toks with
  | error e =>
      rw [string_context_err toks item e hp] at h
      exact Except.noConfusion h
  | ok m =>
      rw [string_context_ok toks item m hp] at h
      obtain rfl := (Except.ok.inj h).symm
      exact ⟨new_variant (m.getD "{0}") item.ident, by simp, rfl, rfl,
             fun u _ => Iff.rfl⟩

/-- Witness for C10 at the sample enum. -/
theorem new_variant_shape_witness :
    ∃ v : Variant, sampleOut.variants.getLast? = some v
      ∧ v.name = "__WithContext"
      ∧ v.fields = [⟨[], FieldTy.stringTy⟩,
                    ⟨[FieldAttr.sourceAttr], FieldTy.boxTy sampleEnum.ident⟩]
      ∧ ∀ u ∈ sampleEnum.variants,
          (u.name = v.name ↔ u.name = "__WithContext") :=
  new_variant_shape [] sampleEnum sampleOut rfl
